import Mathlib

/-!
Verification of the classification core of the
`azure-ai-document-processing-samples` repository (two notebooks:
`samples/classification/document-intelligence-embeddings.ipynb` and
`samples/classification/openai.ipynb`).

Floats are modelled as rationals (`ℚ`); the properties at stake are
order/equality-structural (argmax selection, threshold gating, exact
0/1 indicator means), not rounding behaviour.  The external
`cosine_similarity` routine (sklearn) is an out-of-scope collaborator:
the classification loop is parametrised by the pairwise similarity
function `sim`, exactly as the loop only consumes the row vector
`cosine_similarity(page_vector, classification_matrix)[0]`.
-/

deriving instance DecidableEq for Except

namespace DocClassification

/-- Run-time errors of the notebook pipeline, mirroring the Python
exceptions that can abort a run. -/
inductive RunError where
  /-- `NameError`/`UnboundLocalError`: a local variable read before any
  assignment (as `best_similarity` on a first-page-empty embedding). -/
  | nameError : RunError
  /-- Any failure surfaced by the embedding/completion provider. -/
  | providerError : RunError
  /-- `modules.classification` lookup miss: `get_classification` found no
  entry with the requested page number. -/
  | notFoundError : Nat → RunError
  /-- Python `ZeroDivisionError` from `sum(d.values()) / len(d)` on an
  empty dict. -/
  | zeroDivisionError : RunError
deriving DecidableEq, Repr

/-- One entry of the `Classifications` model (modules/classification.py):
page number, assigned label, best similarity, and the per-category
similarity list.  The source stringifies each similarity for display in
`all_similarities`; the numeric value is kept here. -/
structure Classification where
  page_number : Nat
  classification : String
  similarity : ℚ
  all_similarities : List (String × ℚ)
deriving DecidableEq, Repr

/-- A category definition from the `classifications` list in both
notebooks: name (the label value), description, keywords. -/
structure CategoryDef where
  name : String
  description : String
  keywords : List String
deriving DecidableEq, Repr

/-- Maximum of a list of rationals: the value `np.max` /
`similarities[np.argmax(similarities)]` computes (junk `0` on `[]`,
where NumPy would raise; all uses are guarded by nonemptiness). -/
def listMax : List ℚ → ℚ
  | [] => 0
  | [x] => x
  | x :: y :: rest => max x (listMax (y :: rest))

/-- Index of the first occurrence of the maximum, i.e. `np.argmax`:
NumPy keeps the earliest index on ties (junk `0` on `[]`, where NumPy
would raise). -/
def argmaxIdx : List ℚ → Nat
  | [] => 0
  | [_] => 0
  | x :: y :: rest => if listMax (y :: rest) > x then argmaxIdx (y :: rest) + 1 else 0

/-- State of the Python locals `best_similarity` and `all_similarities`
carried across iterations of the classify loop in cell 20 of
`document-intelligence-embeddings.ipynb`: `none` before the first
non-empty page (reading them then is a `NameError`). -/
abbrev LoopState := Option (ℚ × List (String × ℚ))

/-- The body of the `else` branch of cell 20 for a page with a usable
embedding: `similarities = cosine_similarity(page_vector,
classification_matrix)[0]`, `best_match_idx = np.argmax(similarities)`,
`best_similarity = similarities[best_match_idx]`, `all_similarities`
from `zip(classifications, similarities)`, and the threshold gate on
the label.  `cats` pairs each category name with its embedding (cell 18
stores `cls['embedding']` on the dict). -/
def classifyNonEmptyPage (sim : List ℚ → List ℚ → ℚ) (cats : List (String × List ℚ))
    (τ : ℚ) (idx : Nat) (pageEmb : List ℚ) : Classification :=
  let similarities := cats.map (fun c => sim pageEmb c.2)
  let bestIdx := argmaxIdx similarities
  let bestSim := similarities.getD bestIdx 0
  let alls := (cats.zip similarities).map (fun p => (p.1.1, p.2))
  let label := if bestSim ≥ τ then ((cats.getD bestIdx ("", [])).1) else "Unclassified"
  ⟨idx, label, bestSim, alls⟩

/-- One iteration of the classify loop of cell 20.  On an empty page
embedding (`if not page_emb`), the code assigns the locals
`classification = "Unclassified"` and `similarity = 0.0`, but the
`Classification` appended below the branch reads `best_similarity` and
`all_similarities`: unassigned on the first pass (`NameError`),
otherwise left over from the last non-empty page.  The local
`similarity` is never read. -/
def classifyStep (sim : List ℚ → List ℚ → ℚ) (cats : List (String × List ℚ))
    (τ : ℚ) (idx : Nat) (pageEmb : List ℚ) (st : LoopState) :
    Except RunError (Classification × LoopState) :=
  if pageEmb.isEmpty then
    match st with
    | none => .error .nameError
    | some (bestSim, alls) => .ok (⟨idx, "Unclassified", bestSim, alls⟩, some (bestSim, alls))
  else
    let c := classifyNonEmptyPage sim cats τ idx pageEmb
    .ok (c, some (c.similarity, c.all_similarities))

/-- The classify loop of cell 20 from a given `enumerate` index and
local-variable state, appending one `Classification` per page. -/
def classifyPagesFrom (sim : List ℚ → List ℚ → ℚ) (cats : List (String × List ℚ))
    (τ : ℚ) : Nat → LoopState → List (List ℚ) → Except RunError (List Classification)
  | _, _, [] => .ok []
  | idx, st, p :: ps => do
    let (c, st') ← classifyStep sim cats τ idx p st
    let rest ← classifyPagesFrom sim cats τ (idx + 1) st' ps
    return c :: rest

/-- The whole classify loop of cell 20: `document_classifications`
built over `enumerate(page_embeddings)` starting at index 0 with no
local state. -/
def classifyPages (sim : List ℚ → List ℚ → ℚ) (cats : List (String × List ℚ))
    (τ : ℚ) (pageEmbeddings : List (List ℚ)) : Except RunError (List Classification) :=
  classifyPagesFrom sim cats τ 0 none pageEmbeddings

/-- Modelled from the spec: `modules/classification.py` (the
`Classifications.get_classification` lookup) is not under `src/`; §3
and §4.3 of the spec state that a `ClassificationSet` supports lookup
by `page_number` and fails with `NotFoundError` if absent. -/
def get_classification (cs : List Classification) (p : Nat) :
    Except RunError Classification :=
  match cs.find? (fun c => c.page_number == p) with
  | some c => .ok c
  | none => .error (.notFoundError p)

/-- Python dict assignment `d[k] = v` on an insertion-ordered dict
represented as an association list: overwrite in place if the key
exists, else append. -/
def dictInsert (d : List (Nat × Nat)) (k : Nat) (v : Nat) : List (Nat × Nat) :=
  if (d.find? (fun p => p.1 == k)).isSome then
    d.map (fun p => if p.1 == k then (k, v) else p)
  else d ++ [(k, v)]

/-- The accuracy report of cell 21: the int-keyed per-page 0/1 dict,
and the value later stored under the string key `'overall'`. -/
structure AccuracyReport where
  perPage : List (Nat × Nat)
  overall : ℚ
deriving DecidableEq, Repr

/-- The accuracy cell (cell 21 of the embeddings notebook, cell 15 of
the openai notebook): for each actual classification look up the
expected one at the same page number (a miss raises `NotFoundError`),
store the 0/1 indicator in the dict, then
`overall = sum(accuracy.values()) / len(accuracy)` — a
`ZeroDivisionError` when the dict is empty — and finally
`accuracy['overall'] = overall` (per-page entries are never revisited,
so `overall` excludes itself). -/
def accuracyFold (expected : List Classification) :
    List (Nat × Nat) → List Classification → Except RunError (List (Nat × Nat))
  | d, [] => .ok d
  | d, c :: cs => do
    let e ← get_classification expected c.page_number
    accuracyFold expected
      (dictInsert d c.page_number
        (if e.classification == c.classification then 1 else 0)) cs

/-- The accuracy cell, assembled: run the loop from the empty dict,
then the division and the `'overall'` entry. -/
def computeAccuracy (expected actual : List Classification) :
    Except RunError AccuracyReport := do
  let d ← accuracyFold expected [] actual
  if d.length = 0 then
    .error .zeroDivisionError
  else
    .ok ⟨d, ((d.map (fun p => p.2)).sum : ℚ) / (d.length : ℚ)⟩

/-- The vision strategy's confidence report: per-page confidences
(`none` models the NaN/undefined sentinel) and the `'_overall'`
aggregate entry consumed by the openai notebook as
`confidence['_overall']`. -/
structure ConfidenceReport where
  perPage : List (Nat × Option ℚ)
  overall : ℚ
deriving DecidableEq, Repr

/-- Modelled from the spec: `modules/openai_confidence.py`
(`evaluate_confidence`) is not under `src/`; §3, §4.2 step 3-4 and §7
of the spec state that each page gets a confidence in [0,1] or an
explicit undefined value (never coerced to zero) and that the overall
aggregate is the mean of only the defined per-page confidences. -/
def evaluate_confidence (entries : List (Nat × Option ℚ)) : ConfidenceReport :=
  let defined := entries.filterMap (fun p => p.2)
  ⟨entries, defined.sum / (defined.length : ℚ)⟩

/-- The human-authored expected set of the embeddings notebook
(cell 14): page numbers 0-12. -/
def diExpected : List Classification :=
  [⟨0, "Insurance Policy", 1, []⟩,
   ⟨1, "Insurance Policy", 1, []⟩,
   ⟨2, "Insurance Policy", 1, []⟩,
   ⟨3, "Insurance Policy", 1, []⟩,
   ⟨4, "Insurance Policy", 1, []⟩,
   ⟨5, "Insurance Certificate", 1, []⟩,
   ⟨6, "Terms and Conditions", 1, []⟩,
   ⟨7, "Terms and Conditions", 1, []⟩,
   ⟨8, "Terms and Conditions", 1, []⟩,
   ⟨9, "Terms and Conditions", 1, []⟩,
   ⟨10, "Terms and Conditions", 1, []⟩,
   ⟨11, "Terms and Conditions", 1, []⟩,
   ⟨12, "Terms and Conditions", 1, []⟩]

/-- The human-authored expected set of the openai (vision) notebook
(cell 11): page numbers 1-13. -/
def visionExpected : List Classification :=
  [⟨1, "Insurance Policy", 1, []⟩,
   ⟨2, "Insurance Policy", 1, []⟩,
   ⟨3, "Insurance Policy", 1, []⟩,
   ⟨4, "Insurance Policy", 1, []⟩,
   ⟨5, "Insurance Policy", 1, []⟩,
   ⟨6, "Insurance Certificate", 1, []⟩,
   ⟨7, "Terms and Conditions", 1, []⟩,
   ⟨8, "Terms and Conditions", 1, []⟩,
   ⟨9, "Terms and Conditions", 1, []⟩,
   ⟨10, "Terms and Conditions", 1, []⟩,
   ⟨11, "Terms and Conditions", 1, []⟩,
   ⟨12, "Terms and Conditions", 1, []⟩,
   ⟨13, "Terms and Conditions", 1, []⟩]

/-- The persisted record (`modules/document_processing_result.py`'s
`DataClassificationResult`, as instantiated by the final cell of each
notebook): classification output, accuracy report, and the stopwatch
total. -/
structure DataClassificationResult where
  classification : List Classification
  accuracy : AccuracyReport
  execution_time : ℚ
deriving DecidableEq, Repr

/-- The embeddings notebook run end to end: category keyword embeddings
(cell 18, `' '.join(keywords)`), page embeddings (cell 19), the
classify loop (cell 20), the accuracy cell (cell 21), and only then the
single file write of cell 22.  The second component is the list of
files written during the run: a raised exception halts the notebook
before the write cell, so an error leaves it empty. -/
def runSimilarityNotebook (embed : String → Except RunError (List ℚ))
    (sim : List ℚ → List ℚ → ℚ) (cats : List CategoryDef) (τ : ℚ)
    (pagesContent : List String) (expected : List Classification) (t : ℚ) :
    Except RunError DataClassificationResult × List DataClassificationResult :=
  match (do
    let catEmbs ← cats.mapM (fun c => do
      let e ← embed (String.intercalate " " c.keywords)
      return (c.name, e))
    let pageEmbs ← pagesContent.mapM embed
    let doc ← classifyPages sim catEmbs τ pageEmbs
    let acc ← computeAccuracy expected doc
    return DataClassificationResult.mk doc acc t :
      Except RunError DataClassificationResult) with
  | .error e => (.error e, [])
  | .ok r => (.ok r, [r])

/-- The openai (vision) notebook run: the single batched completion
call (cell 13/14, whose parse failure or provider failure is fatal),
the accuracy cell (cell 15), and only then the single file write of
cell 16.  The second component is the list of files written. -/
def runVisionNotebook (complete : Except RunError (List Classification))
    (expected : List Classification) (t : ℚ) :
    Except RunError DataClassificationResult × List DataClassificationResult :=
  match (do
    let doc ← complete
    let acc ← computeAccuracy expected doc
    return DataClassificationResult.mk doc acc t :
      Except RunError DataClassificationResult) with
  | .error e => (.error e, [])
  | .ok r => (.ok r, [r])

theorem listMax_cons (x : ℚ) (y : ℚ) (rest : List ℚ) :
    listMax (x :: y :: rest) = max x (listMax (y :: rest)) := rfl

theorem argmaxIdx_lt_length (l : List ℚ) (h : l ≠ []) : argmaxIdx l < l.length := by
  induction l with
  | nil => exact absurd rfl h
  | cons x xs ih =>
    cases xs with
    | nil => simp [argmaxIdx]
    | cons y rest =>
      by_cases hgt : listMax (y :: rest) > x
      · have h2 := ih (by simp)
        simp only [List.length_cons] at h2
        simp only [argmaxIdx, if_pos hgt, List.length_cons]
        omega
      · simp only [argmaxIdx, if_neg hgt, List.length_cons]
        omega

/-- The element at the argmax index is the maximum. -/
theorem get_argmaxIdx (l : List ℚ) (h : l ≠ []) (hlt : argmaxIdx l < l.length) :
    l.get ⟨argmaxIdx l, hlt⟩ = listMax l := by
  induction l with
  | nil => exact absurd rfl h
  | cons x xs ih =>
    cases xs with
    | nil => simp [argmaxIdx, listMax]
    | cons y rest =>
      by_cases hgt : listMax (y :: rest) > x
      · have hlt' : argmaxIdx (y :: rest) < (y :: rest).length :=
          argmaxIdx_lt_length _ (by simp)
        have hx := ih (by simp) hlt'
        simp only [argmaxIdx, if_pos hgt] at hlt ⊢
        simp only [listMax_cons]
        rw [max_eq_right (le_of_lt hgt)]
        simpa using hx
      · push_neg at hgt
        simp only [argmaxIdx, if_neg (not_lt.mpr hgt)]
        simp only [listMax_cons]
        rw [max_eq_left hgt]
        rfl

/-- Every element is bounded by the maximum. -/
theorem get_le_listMax (l : List ℚ) (i : Fin l.length) : l.get i ≤ listMax l := by
  induction l with
  | nil => exact absurd i.2 (by simp)
  | cons x xs ih =>
    cases xs with
    | nil =>
      rcases i with ⟨iv, hi⟩
      have hiv : iv = 0 := by
        simp only [List.length_cons, List.length_nil] at hi
        omega
      subst hiv
      simp [listMax]
    | cons y rest =>
      rcases i with ⟨iv, hi⟩
      cases iv with
      | zero => simp [listMax_cons]
      | succ n =>
        have hn : n < (y :: rest).length := by
          simpa using Nat.lt_of_succ_lt_succ hi
        have := ih ⟨n, hn⟩
        simp only [listMax_cons]
        calc (x :: y :: rest).get ⟨n + 1, hi⟩ = (y :: rest).get ⟨n, hn⟩ := rfl
          _ ≤ listMax (y :: rest) := this
          _ ≤ max x (listMax (y :: rest)) := le_max_right _ _

/-- Strictly before the argmax index every element is strictly below the
maximum: the argmax is the first index attaining it. -/
theorem get_lt_of_lt_argmaxIdx (l : List ℚ) (i : Fin l.length)
    (hfirst : i.1 < argmaxIdx l) : l.get i < listMax l := by
  induction l with
  | nil => exact absurd i.2 (by simp)
  | cons x xs ih =>
    cases xs with
    | nil => simp [argmaxIdx] at hfirst
    | cons y rest =>
      rcases i with ⟨iv, hi⟩
      by_cases hgt : listMax (y :: rest) > x
      · simp only [argmaxIdx, if_pos hgt] at hfirst
        cases iv with
        | zero =>
          simp only [List.get]
          simp only [listMax_cons]
          rw [max_eq_right (le_of_lt hgt)]
          exact hgt
        | succ n =>
          have hn : n < (y :: rest).length := by
            simpa using Nat.lt_of_succ_lt_succ hi
          have hfirst2 : n + 1 < argmaxIdx (y :: rest) + 1 := by
            simpa using hfirst
          have hfirst' : n < argmaxIdx (y :: rest) := by omega
          have := ih ⟨n, hn⟩ hfirst'
          simp only [listMax_cons]
          rw [max_eq_right (le_of_lt hgt)]
          exact this
      · simp only [argmaxIdx, if_neg hgt] at hfirst
        exact absurd hfirst (by simp)

/-- On success the loop yields one entry per page, and each page with a
non-empty embedding got the `else`-branch result at its own index. -/
theorem classifyPagesFrom_spec (sim : List ℚ → List ℚ → ℚ)
    (cats : List (String × List ℚ)) (τ : ℚ) :
    ∀ (pages : List (List ℚ)) (idx : Nat) (st : LoopState) (res : List Classification),
      classifyPagesFrom sim cats τ idx st pages = .ok res →
      res.length = pages.length ∧
      ∀ (i : Fin pages.length), ¬ (pages.get i).isEmpty →
        res[i.1]? = some (classifyNonEmptyPage sim cats τ (idx + i.1) (pages.get i)) := by
  intro pages
  induction pages with
  | nil =>
    intro idx st res h
    simp only [classifyPagesFrom] at h
    cases h
    exact ⟨rfl, fun i => absurd i.2 (by simp)⟩
  | cons p ps ih =>
    intro idx st res h
    simp only [classifyPagesFrom, bind, Except.bind] at h
    rcases hstep : classifyStep sim cats τ idx p st with e | cst
    · rw [hstep] at h; cases h
    · rw [hstep] at h
      rcases cst with ⟨c, st'⟩
      dsimp only at h
      rcases hrest : classifyPagesFrom sim cats τ (idx + 1) st' ps with e | rest
      · rw [hrest] at h; cases h
      · rw [hrest] at h
        simp only [pure, Except.pure] at h
        cases h
        rcases ih (idx + 1) st' rest hrest with ⟨hlen, hget⟩
        refine ⟨by simp [hlen], ?_⟩
        intro i hne
        rcases i with ⟨iv, hi⟩
        cases iv with
        | zero =>
          simp only [List.get] at hne ⊢
          unfold classifyStep at hstep
          rw [if_neg (by simpa using hne)] at hstep
          cases hstep
          simp
        | succ n =>
          have hn : n < ps.length := by simpa using Nat.lt_of_succ_lt_succ hi
          have hne' : ¬ (ps.get ⟨n, hn⟩).isEmpty := by simpa using hne
          have hx := hget ⟨n, hn⟩ hne'
          simp only [List.get] at hx ⊢
          simp only [List.getElem?_cons_succ]
          rw [hx]
          congr 2
          omega

theorem classifyStep_pageNumber {sim : List ℚ → List ℚ → ℚ}
    {cats : List (String × List ℚ)} {τ : ℚ} {idx : Nat} {p : List ℚ}
    {st : LoopState} {c : Classification} {st' : LoopState}
    (h : classifyStep sim cats τ idx p st = .ok (c, st')) : c.page_number = idx := by
  unfold classifyStep at h
  split at h
  · cases st with
    | none => cases h
    | some pr => rcases pr with ⟨bs, alls⟩; cases h; rfl
  · cases h; rfl

/-- On success the loop yields one entry per page with consecutive
`enumerate` page numbers starting at `idx`. -/
theorem classifyPagesFrom_pageNumbers (sim : List ℚ → List ℚ → ℚ)
    (cats : List (String × List ℚ)) (τ : ℚ) :
    ∀ (pages : List (List ℚ)) (idx : Nat) (st : LoopState) (res : List Classification),
      classifyPagesFrom sim cats τ idx st pages = .ok res →
      res.length = pages.length ∧
      ∀ (i : Nat) (hi : i < res.length), (res.get ⟨i, hi⟩).page_number = idx + i := by
  intro pages
  induction pages with
  | nil =>
    intro idx st res h
    simp only [classifyPagesFrom] at h
    cases h
    exact ⟨rfl, fun i hi => absurd hi (by simp)⟩
  | cons p ps ih =>
    intro idx st res h
    simp only [classifyPagesFrom, bind, Except.bind] at h
    rcases hstep : classifyStep sim cats τ idx p st with e | cst
    · rw [hstep] at h; cases h
    · rw [hstep] at h
      rcases cst with ⟨c, st'⟩
      dsimp only at h
      rcases hrest : classifyPagesFrom sim cats τ (idx + 1) st' ps with e | rest
      · rw [hrest] at h; cases h
      · rw [hrest] at h
        simp only [pure, Except.pure] at h
        cases h
        rcases ih (idx + 1) st' rest hrest with ⟨hlen, hget⟩
        refine ⟨by simp [hlen], ?_⟩
        intro i hi
        cases i with
        | zero => simpa using classifyStep_pageNumber hstep
        | succ n =>
          have hn : n < rest.length := by simpa using Nat.lt_of_succ_lt_succ hi
          have := hget n hn
          simp only [List.get] at this ⊢
          rw [this]
          omega

/-- C1: the spec (and the dead local assignment `similarity = 0.0` in
the empty branch of cell 20) requires an empty-embedding page to be
recorded as `"Unclassified"` with score `0.0` and empty `all_scores`;
the appended `Classification` instead reads `best_similarity` and
`all_similarities`, so an empty page after a non-empty one is recorded
with the previous page's score (here `9 ≠ 0`) and score list (here
nonempty), and an empty first page raises `NameError` instead of being
classified. -/
theorem similarity_empty_page_fallback_violated :
    (classifyPages (fun _ _ => (9 : ℚ)) [("A", [1])] (2 : ℚ) [[1], []] =
      .ok [⟨0, "A", (9 : ℚ), [("A", (9 : ℚ))]⟩,
           ⟨1, "Unclassified", (9 : ℚ), [("A", (9 : ℚ))]⟩]) ∧
    (classifyPages (fun _ _ => (9 : ℚ)) [("A", [1])] (2 : ℚ) [[]] =
      .error .nameError) := by
  constructor <;> decide

theorem dictInsert_ne_nil (d : List (Nat × Nat)) (k v : Nat) :
    dictInsert d k v ≠ [] := by
  unfold dictInsert
  split
  · intro hmap
    rcases d with _ | ⟨p, rest⟩
    · simp at *
    · simp at hmap
  · simp

theorem get_classification_error_shape {expected : List Classification} {p : Nat}
    {e : RunError} (h : get_classification expected p = .error e) :
    e = .notFoundError p := by
  unfold get_classification at h
  rcases hf : expected.find? (fun c => c.page_number == p) with _ | c
  · rw [hf] at h; cases h; rfl
  · rw [hf] at h; cases h

theorem accuracyFold_error_shape (expected : List Classification) :
    ∀ (actual : List Classification) (d : List (Nat × Nat)) (e : RunError),
      accuracyFold expected d actual = .error e → ∃ p, e = .notFoundError p := by
  intro actual
  induction actual with
  | nil =>
    intro d e h
    simp only [accuracyFold] at h
    cases h
  | cons c cs ih =>
    intro d e h
    simp only [accuracyFold, bind, Except.bind] at h
    rcases hl : get_classification expected c.page_number with e' | v
    · rw [hl] at h
      cases h
      exact ⟨c.page_number, get_classification_error_shape hl⟩
    · rw [hl] at h
      exact ih _ e h

theorem accuracyFold_ok_ne_nil (expected : List Classification) :
    ∀ (actual : List Classification) (d d' : List (Nat × Nat)),
      accuracyFold expected d actual = .ok d' → d ≠ [] → d' ≠ [] := by
  intro actual
  induction actual with
  | nil =>
    intro d d' h hd
    simp only [accuracyFold] at h
    cases h
    exact hd
  | cons c cs ih =>
    intro d d' h _
    simp only [accuracyFold, bind, Except.bind] at h
    rcases hl : get_classification expected c.page_number with e' | v
    · rw [hl] at h; cases h
    · rw [hl] at h
      exact ih _ d' h (dictInsert_ne_nil _ _ _)

theorem accuracyFold_cons_ok_ne_nil (expected : List Classification)
    (c : Classification) (cs : List Classification) (d d' : List (Nat × Nat))
    (h : accuracyFold expected d (c :: cs) = .ok d') : d' ≠ [] := by
  simp only [accuracyFold, bind, Except.bind] at h
  rcases hl : get_classification expected c.page_number with e' | v
  · rw [hl] at h; cases h
  · rw [hl] at h
    exact accuracyFold_ok_ne_nil expected cs _ d' h (dictInsert_ne_nil _ _ _)

/-- C9: with an empty actual `ClassificationSet` the accuracy cell's
dict stays empty and `sum(accuracy.values()) / len(accuracy)` raises
`ZeroDivisionError`; for every non-empty actual set no
`ZeroDivisionError` can arise (a run either produces a report or fails
earlier on a lookup `NotFoundError`). -/
theorem accuracy_zero_division_on_empty_set
    (expected actual : List Classification) :
    (actual = [] → computeAccuracy expected actual = .error .zeroDivisionError) ∧
    (actual ≠ [] → computeAccuracy expected actual ≠ .error .zeroDivisionError) := by
  constructor
  · intro hnil
    subst hnil
    rfl
  · intro hne
    rcases actual with _ | ⟨c, cs⟩
    · exact absurd rfl hne
    unfold computeAccuracy
    simp only [bind, Except.bind]
    rcases hf : accuracyFold expected [] (c :: cs) with e | d
    · rcases accuracyFold_error_shape expected (c :: cs) [] e hf with ⟨p, hp⟩
      subst hp
      intro hcon
      cases hcon
    · have hd : d ≠ [] := accuracyFold_cons_ok_ne_nil expected c cs [] d hf
      dsimp only
      rw [if_neg (by simpa using List.length_pos.mpr hd |>.ne')]
      intro hcon
      cases hcon

/-- C9 witness: a concrete empty actual set raises `ZeroDivisionError`
and a concrete singleton actual set does not. -/
theorem accuracy_zero_division_on_empty_set_witness :
    computeAccuracy diExpected [] = .error .zeroDivisionError ∧
    computeAccuracy diExpected [⟨0, "Insurance Policy", 1, []⟩] ≠
      .error .zeroDivisionError :=
  ⟨(accuracy_zero_division_on_empty_set diExpected []).1 rfl,
   (accuracy_zero_division_on_empty_set diExpected
      [⟨0, "Insurance Policy", 1, []⟩]).2 (by decide)⟩

/-- C5: every `ClassificationSet` the similarity classify loop
produces numbers its i-th entry `i` (0-indexed `enumerate`, no index
skipped); the vision pipeline's numbering convention — fixed in source
by its hard-coded expected set, the produced labels coming from the
external model — starts at 1 and is likewise consecutive. -/
theorem page_numbering_conventions :
    (∀ (sim : List ℚ → List ℚ → ℚ) (cats : List (String × List ℚ)) (τ : ℚ)
       (pages : List (List ℚ)) (res : List Classification),
       classifyPages sim cats τ pages = .ok res →
       res.length = pages.length ∧
       ∀ (i : Nat) (hi : i < res.length), (res.get ⟨i, hi⟩).page_number = i) ∧
    (visionExpected.length = 13 ∧
     ∀ (i : Nat) (hi : i < visionExpected.length),
       (visionExpected.get ⟨i, hi⟩).page_number = i + 1) := by
  refine ⟨?_, by decide⟩
  intro sim cats τ pages res h
  rcases classifyPagesFrom_pageNumbers sim cats τ pages 0 none res h with ⟨hlen, hget⟩
  exact ⟨hlen, fun i hi => by simpa using hget i hi⟩

/-- C5 witness: a concrete two-page run is numbered 0, 1. -/
theorem page_numbering_conventions_witness :
    ∃ res, classifyPages (fun _ _ => (9 : ℚ)) [("A", [1])] (2 : ℚ) [[1], [2]] = .ok res ∧
      res.length = 2 ∧
      ∀ (i : Nat) (hi : i < res.length), (res.get ⟨i, hi⟩).page_number = i := by
  refine ⟨_, rfl, ?_⟩
  exact page_numbering_conventions.1 (fun _ _ => (9 : ℚ)) [("A", [1])] (2 : ℚ)
    [[1], [2]] _ rfl

/-- C8: in both notebooks the single result-file write is the final
cell, sequenced after every provider call, the classify loop and the
accuracy computation; the files written during a run are exactly one
complete record on success and none when any error aborts the run. -/
theorem write_after_success
    (embed : String → Except RunError (List ℚ)) (sim : List ℚ → List ℚ → ℚ)
    (cats : List CategoryDef) (τ : ℚ) (pagesContent : List String)
    (expected expected2 : List Classification) (t t2 : ℚ)
    (complete : Except RunError (List Classification)) :
    ((runSimilarityNotebook embed sim cats τ pagesContent expected t).2 =
      match (runSimilarityNotebook embed sim cats τ pagesContent expected t).1 with
      | .ok r => [r]
      | .error _ => []) ∧
    ((runVisionNotebook complete expected2 t2).2 =
      match (runVisionNotebook complete expected2 t2).1 with
      | .ok r => [r]
      | .error _ => []) := by
  constructor
  · unfold runSimilarityNotebook
    split <;> rfl
  · unfold runVisionNotebook
    split <;> rfl

/-- C2: for a page with a usable (non-empty) embedding, under a
successful run with a non-empty registry, the stored score is always
the maximum similarity over the categories, and the label equals the
best category's name exactly when that maximum reaches the threshold,
`"Unclassified"` otherwise (gating touches the label only). -/
theorem threshold_gates_label_not_score
    (sim : List ℚ → List ℚ → ℚ) (cats : List (String × List ℚ)) (τ : ℚ)
    (pages : List (List ℚ)) (res : List Classification)
    (hok : classifyPages sim cats τ pages = .ok res)
    (i : Fin pages.length) (hne : ¬ (pages.get i).isEmpty) (hcats : cats ≠ []) :
    ∃ c, res[i.1]? = some c ∧
      c.similarity = listMax (cats.map (fun cat => sim (pages.get i) cat.2)) ∧
      (∀ j : Fin cats.length, sim (pages.get i) (cats.get j).2 ≤ c.similarity) ∧
      (¬ τ ≤ c.similarity → c.classification = "Unclassified") ∧
      ((cats.getD (argmaxIdx (cats.map (fun cat => sim (pages.get i) cat.2)))
          ("", [])).1 ≠ "Unclassified" →
        (c.classification =
            (cats.getD (argmaxIdx (cats.map (fun cat => sim (pages.get i) cat.2)))
              ("", [])).1 ↔
          τ ≤ c.similarity)) := by
  rcases classifyPagesFrom_spec sim cats τ pages 0 none res hok with ⟨hlen, hget⟩
  have hc := hget i hne
  refine ⟨_, hc, ?_⟩
  set P := pages.get i with hP
  set sims := cats.map (fun cat => sim P cat.2) with hsims
  have hsne : sims ≠ [] := by
    simp only [hsims, ne_eq, List.map_eq_nil_iff]
    exact hcats
  have hslt : argmaxIdx sims < sims.length := argmaxIdx_lt_length sims hsne
  have hbest : sims.getD (argmaxIdx sims) 0 = listMax sims := by
    rw [List.getD_eq_getElem sims 0 hslt]
    simpa using get_argmaxIdx sims hsne hslt
  have hsimv : (classifyNonEmptyPage sim cats τ (0 + i.1) P).similarity = listMax sims := by
    simp only [classifyNonEmptyPage]
    exact hbest
  refine ⟨hsimv, ?_, ?_, ?_⟩
  · intro j
    rw [hsimv]
    have hj : j.1 < sims.length := by
      simp only [hsims, List.length_map]
      exact j.2
    have : sims.get ⟨j.1, hj⟩ = sim P (cats.get j).2 := by
      simp [hsims]
    rw [← this]
    exact get_le_listMax sims ⟨j.1, hj⟩
  · intro hτ
    rw [hsimv] at hτ
    simp only [classifyNonEmptyPage]
    rw [hbest, if_neg hτ]
  · intro hname
    rw [hsimv]
    by_cases hτ : τ ≤ listMax sims
    · constructor
      · intro _; exact hτ
      · intro _
        simp only [classifyNonEmptyPage]
        rw [hbest, if_pos hτ]
    · constructor
      · intro hlab
        exfalso
        apply hname
        rw [← hlab]
        simp only [classifyNonEmptyPage]
        rw [hbest, if_neg hτ]
      · intro h; exact absurd h hτ

/-- C2 witness: one page, one category, similarity 9 over threshold 2:
the below-threshold clause and the gating biconditional are discharged
at that input. -/
theorem threshold_gates_label_not_score_witness :
    ∃ c, ((classifyPages (fun _ _ => (9 : ℚ)) [("A", [1])] (2 : ℚ) [[1]] =
        .ok [c]) ∧
      c.classification = "A" ∧ c.similarity = 9) := by
  obtain ⟨c, hc, hsim, _, _, hiff⟩ :=
    threshold_gates_label_not_score (fun _ _ => (9 : ℚ)) [("A", [1])] (2 : ℚ)
      [[1]] [⟨0, "A", 9, [("A", 9)]⟩] (by decide) ⟨0, by decide⟩ (by decide)
      (by decide)
  have hc' : c = ⟨0, "A", 9, [("A", 9)]⟩ := by
    simpa using hc.symm
  subst hc'
  exact ⟨⟨0, "A", 9, [("A", 9)]⟩, by decide, rfl, rfl⟩

theorem zip_map_names (cats : List (String × List ℚ)) (sims : List ℚ)
    (j : Nat) (hj : j < cats.length) (hlen : sims.length = cats.length) :
    ((cats.zip sims).map (fun p => (p.1.1, p.2)))[j]? =
      some ((cats.get ⟨j, hj⟩).1, sims.get ⟨j, by omega⟩) := by
  have hjz : j < (cats.zip sims).length := by
    rw [List.length_zip]
    omega
  rw [List.getElem?_map]
  rw [List.getElem?_eq_getElem hjz]
  simp only [Option.map_some']
  congr 1
  rw [List.getElem_zip]
  simp

/-- C6: for a page with a usable embedding, `all_scores` has exactly
one (category name, raw similarity) pair per registered category, in
registry iteration order (the `zip(classifications, similarities)`
construction of cell 20). -/
theorem all_scores_complete_in_registry_order
    (sim : List ℚ → List ℚ → ℚ) (cats : List (String × List ℚ)) (τ : ℚ)
    (pages : List (List ℚ)) (res : List Classification)
    (hok : classifyPages sim cats τ pages = .ok res)
    (i : Fin pages.length) (hne : ¬ (pages.get i).isEmpty) :
    ∃ c, res[i.1]? = some c ∧
      c.all_similarities.length = cats.length ∧
      ∀ (j : Nat) (hj : j < cats.length),
        c.all_similarities[j]? =
          some ((cats.get ⟨j, hj⟩).1, sim (pages.get i) (cats.get ⟨j, hj⟩).2) := by
  rcases classifyPagesFrom_spec sim cats τ pages 0 none res hok with ⟨hlen, hget⟩
  have hc := hget i hne
  refine ⟨_, hc, ?_, ?_⟩
  · simp [classifyNonEmptyPage, List.length_zip]
  · intro j hj
    have hmlen : (cats.map (fun cat => sim (pages.get i) cat.2)).length = cats.length := by
      simp
    simp only [classifyNonEmptyPage]
    rw [zip_map_names cats _ j hj hmlen]
    congr 2
    simp

/-- C6 witness: two categories, similarities 9 and 9, `all_scores`
lists both in registry order. -/
theorem all_scores_complete_in_registry_order_witness :
    ∃ c, ((classifyPages (fun _ _ => (9 : ℚ)) [("A", [1]), ("B", [2])] (2 : ℚ)
        [[1]] = .ok [c]) ∧
      c.all_similarities.length = 2 ∧
      c.all_similarities[0]? = some ("A", 9) ∧
      c.all_similarities[1]? = some ("B", 9)) := by
  obtain ⟨c, hc, hlen2, hall⟩ :=
    all_scores_complete_in_registry_order (fun _ _ => (9 : ℚ))
      [("A", [1]), ("B", [2])] (2 : ℚ) [[1]]
      [⟨0, "A", 9, [("A", 9), ("B", 9)]⟩] (by decide) ⟨0, by decide⟩ (by decide)
  have hc' : c = ⟨0, "A", 9, [("A", 9), ("B", 9)]⟩ := by
    simpa using hc.symm
  subst hc'
  exact ⟨⟨0, "A", 9, [("A", 9), ("B", 9)]⟩, by decide, by decide, by decide, by decide⟩

/-- C10: when the maximum similarity is attained by more than one
category, `np.argmax` returns the lowest attaining index, so the label
(once the maximum passes the threshold) is the name of the first
category in registry iteration order attaining the maximum —
classification is a deterministic function of the inputs (it is a Lean
function of them). -/
theorem tie_breaks_to_first_category
    (sim : List ℚ → List ℚ → ℚ) (cats : List (String × List ℚ)) (τ : ℚ)
    (pages : List (List ℚ)) (res : List Classification)
    (hok : classifyPages sim cats τ pages = .ok res)
    (i : Fin pages.length) (hne : ¬ (pages.get i).isEmpty)
    (j : Fin cats.length)
    (hjmax : sim (pages.get i) (cats.get j).2 =
      listMax (cats.map (fun cat => sim (pages.get i) cat.2)))
    (hfirst : ∀ m : Fin cats.length, m.1 < j.1 →
      sim (pages.get i) (cats.get m).2 ≠
        listMax (cats.map (fun cat => sim (pages.get i) cat.2)))
    (_htie : ∃ k : Fin cats.length, k ≠ j ∧
      sim (pages.get i) (cats.get k).2 =
        listMax (cats.map (fun cat => sim (pages.get i) cat.2)))
    (hτ : τ ≤ listMax (cats.map (fun cat => sim (pages.get i) cat.2))) :
    ∃ c, res[i.1]? = some c ∧ c.classification = (cats.get j).1 := by
  rcases classifyPagesFrom_spec sim cats τ pages 0 none res hok with ⟨hlen, hget⟩
  have hc := hget i hne
  refine ⟨_, hc, ?_⟩
  set P := pages.get i with hP
  set sims := cats.map (fun cat => sim P cat.2) with hsims
  have hmlen : sims.length = cats.length := by simp [hsims]
  have hsne : sims ≠ [] := by
    intro hnil
    rw [hnil] at hmlen
    simp only [List.length_nil] at hmlen
    have hj2 := j.2
    omega
  have hslt : argmaxIdx sims < sims.length := argmaxIdx_lt_length sims hsne
  have hgetsim : ∀ m : Fin cats.length, sims.get ⟨m.1, by omega⟩ = sim P (cats.get m).2 := by
    intro m
    simp [hsims]
  have hav : sims.get ⟨argmaxIdx sims, hslt⟩ = listMax sims := get_argmaxIdx sims hsne hslt
  have hja : j.1 = argmaxIdx sims := by
    rcases Nat.lt_trichotomy j.1 (argmaxIdx sims) with hlt | heq | hgt
    · exfalso
      have := get_lt_of_lt_argmaxIdx sims ⟨j.1, by omega⟩ hlt
      rw [hgetsim j] at this
      exact absurd hjmax (ne_of_lt this)
    · exact heq
    · exfalso
      have ha : argmaxIdx sims < cats.length := by omega
      have := hfirst ⟨argmaxIdx sims, ha⟩ hgt
      apply this
      rw [← hgetsim ⟨argmaxIdx sims, ha⟩]
      exact hav
  have hbest : sims.getD (argmaxIdx sims) 0 = listMax sims := by
    rw [List.getD_eq_getElem sims 0 hslt]
    simpa using hav
  simp only [classifyNonEmptyPage]
  rw [hbest, if_pos hτ]
  have hjc : argmaxIdx sims < cats.length := by omega
  rw [List.getD_eq_getElem cats ("", []) hjc]
  congr 1
  have : j = (⟨argmaxIdx sims, hjc⟩ : Fin cats.length) := Fin.ext hja
  rw [this]
  simp

/-- C10 witness: two categories both scoring 9 — the label is the
first one, "A". -/
theorem tie_breaks_to_first_category_witness :
    ∃ c, (([⟨0, "A", (9 : ℚ), [("A", 9), ("B", 9)]⟩] :
        List Classification)[(0 : Nat)]? = some c) ∧
      c.classification = ([("A", ([1] : List ℚ)), ("B", [2])].get
        ⟨0, by decide⟩).1 := by
  exact tie_breaks_to_first_category (fun _ _ => (9 : ℚ))
    [("A", [1]), ("B", [2])] (2 : ℚ) [[1]]
    [⟨0, "A", 9, [("A", 9), ("B", 9)]⟩] (by decide) ⟨0, by decide⟩ (by decide)
    ⟨0, by decide⟩ (by decide)
    (fun m hm => absurd hm (Nat.not_lt_zero m.1))
    ⟨⟨1, by decide⟩, by decide, by decide⟩ (by decide)

theorem dictInsert_values (d : List (Nat × Nat)) (k v : Nat) (P : Nat → Prop)
    (hd : ∀ p ∈ d, P p.2) (hv : P v) : ∀ p ∈ dictInsert d k v, P p.2 := by
  unfold dictInsert
  split
  · intro p hp
    rcases List.mem_map.mp hp with ⟨q, hq, hpq⟩
    by_cases hk : q.1 == k
    · rw [if_pos hk] at hpq
      rw [← hpq]
      exact hv
    · rw [if_neg hk] at hpq
      rw [← hpq]
      exact hd q hq
  · intro p hp
    rcases List.mem_append.mp hp with h | h
    · exact hd p h
    · rcases List.mem_singleton.mp h with rfl
      exact hv

theorem accuracyFold_values (expected : List Classification) (P : Nat → Prop) :
    ∀ (actual : List Classification) (d d' : List (Nat × Nat)),
      accuracyFold expected d actual = .ok d' →
      (∀ p ∈ d, P p.2) →
      (∀ c ∈ actual, ∀ e, get_classification expected c.page_number = .ok e →
        P (if e.classification == c.classification then 1 else 0)) →
      ∀ p ∈ d', P p.2 := by
  intro actual
  induction actual with
  | nil =>
    intro d d' h hd _
    simp only [accuracyFold] at h
    cases h
    exact hd
  | cons c cs ih =>
    intro d d' h hd hcond
    simp only [accuracyFold, bind, Except.bind] at h
    rcases hl : get_classification expected c.page_number with e' | v
    · rw [hl] at h; cases h
    · rw [hl] at h
      refine ih _ d' h ?_ ?_
      · exact dictInsert_values d _ _ P hd (hcond c (by simp) v hl)
      · intro c' hc' e he
        exact hcond c' (by simp [hc']) e he

theorem sum_map_cast_ones : ∀ (d : List (Nat × Nat)), (∀ p ∈ d, p.2 = 1) →
    (d.map (fun p => (p.2 : ℚ))).sum = (d.length : ℚ) := by
  intro d
  induction d with
  | nil => intro _; simp
  | cons q qs ih =>
    intro h
    have hq : q.2 = 1 := h q (by simp)
    have := ih (fun y hy => h y (by simp [hy]))
    simp [hq, this]
    ring

theorem sum_map_cast_zeros : ∀ (d : List (Nat × Nat)), (∀ p ∈ d, p.2 = 0) →
    (d.map (fun p => (p.2 : ℚ))).sum = 0 := by
  intro d
  induction d with
  | nil => intro _; simp
  | cons q qs ih =>
    intro h
    have hq : q.2 = 0 := h q (by simp)
    have := ih (fun y hy => h y (by simp [hy]))
    simp [hq, this]

/-- C3: the accuracy report's `overall` is the arithmetic mean of the
per-page 0/1 indicators (the `'overall'` key is added after the
division, so it is excluded from its own computation); an actual set
whose labels all match the expected ones at lookup yields 1, a
completely mismatching one yields 0. -/
theorem accuracy_overall_is_mean (expected actual : List Classification)
    (r : AccuracyReport) (hok : computeAccuracy expected actual = .ok r) :
    r.overall = ((r.perPage.map (fun p => p.2)).sum : ℚ) / (r.perPage.length : ℚ) ∧
    r.perPage ≠ [] ∧
    ((∀ c ∈ actual, ∀ e, get_classification expected c.page_number = .ok e →
        e.classification = c.classification) → r.overall = 1) ∧
    ((∀ c ∈ actual, ∀ e, get_classification expected c.page_number = .ok e →
        e.classification ≠ c.classification) → r.overall = 0) := by
  unfold computeAccuracy at hok
  simp only [bind, Except.bind] at hok
  rcases hf : accuracyFold expected [] actual with e | d
  · rw [hf] at hok; cases hok
  · rw [hf] at hok
    dsimp only at hok
    by_cases hlen0 : d.length = 0
    · rw [if_pos hlen0] at hok; cases hok
    · rw [if_neg hlen0] at hok
      cases hok
      refine ⟨rfl, by simpa using List.length_pos.mp (by omega), ?_, ?_⟩
      · intro hmatch
        have hones : ∀ p ∈ d, p.2 = 1 := by
          refine accuracyFold_values expected (fun x => x = 1) actual [] d hf
            (by intro p hp; cases hp) ?_
          intro c hc e he
          rw [if_pos (by simp [hmatch c hc e he])]
        have hsum := sum_map_cast_ones d hones
        simp only [hsum]
        rw [div_self]
        exact Nat.cast_ne_zero.mpr hlen0
      · intro hmiss
        have hzeros : ∀ p ∈ d, p.2 = 0 := by
          refine accuracyFold_values expected (fun x => x = 0) actual [] d hf
            (by intro p hp; cases hp) ?_
          intro c hc e he
          rw [if_neg (by simpa using hmiss c hc e he)]
        have hsum := sum_map_cast_zeros d hzeros
        simp [hsum]

/-- C3 witness: a singleton actual set matching its expected set gives
overall accuracy 1. -/
theorem accuracy_overall_is_mean_witness :
    ∃ r, computeAccuracy [⟨0, "A", 1, []⟩] [⟨0, "A", 1, []⟩] = .ok r ∧
      r.overall = 1 := by
  obtain ⟨r, hr⟩ :
      ∃ r, computeAccuracy [⟨0, "A", 1, []⟩] [⟨0, "A", 1, []⟩] = .ok r := ⟨_, rfl⟩
  refine ⟨r, hr, ?_⟩
  refine (accuracy_overall_is_mean _ _ r hr).2.2.1 ?_
  intro c hc e he
  rcases List.mem_singleton.mp hc with rfl
  have hx : get_classification [(⟨0, "A", 1, []⟩ : Classification)] 0 =
      .ok ⟨0, "A", 1, []⟩ := rfl
  have he2 : (Except.ok (⟨0, "A", 1, []⟩ : Classification) :
      Except RunError Classification) = .ok e := hx.symm.trans he
  cases he2
  rfl

theorem accuracyFold_notFound (expected : List Classification) :
    ∀ (actual : List Classification) (d : List (Nat × Nat)) (c : Classification),
      c ∈ actual →
      expected.find? (fun x => x.page_number == c.page_number) = none →
      ∃ p, accuracyFold expected d actual = .error (.notFoundError p) := by
  intro actual
  induction actual with
  | nil => intro d c hc _; cases hc
  | cons a cs ih =>
    intro d c hc hnone
    simp only [accuracyFold, bind, Except.bind]
    rcases hl : get_classification expected a.page_number with e' | v
    · refine ⟨a.page_number, ?_⟩
      have hsh := get_classification_error_shape hl
      subst hsh
      rfl
    · dsimp only
      rcases List.mem_cons.mp hc with hca | hcs
      · subst hca
        unfold get_classification at hl
        rw [hnone] at hl
        cases hl
      · exact ih _ c hcs hnone

/-- C4: evaluating an actual set that contains a page number absent
from the expected set fails with `NotFoundError` (raised by the
spec-modelled `get_classification`); the page is never silently scored
as incorrect, since the whole computation returns an error, not a
report. -/
theorem evaluation_missing_page_not_found (expected actual : List Classification)
    (c : Classification) (hc : c ∈ actual)
    (habsent : ∀ e ∈ expected, e.page_number ≠ c.page_number) :
    ∃ p, computeAccuracy expected actual = .error (.notFoundError p) := by
  have hnone : expected.find? (fun x => x.page_number == c.page_number) = none := by
    rw [List.find?_eq_none]
    intro x hx
    simpa using habsent x hx
  rcases accuracyFold_notFound expected actual [] c hc hnone with ⟨p, hp⟩
  refine ⟨p, ?_⟩
  unfold computeAccuracy
  simp only [bind, Except.bind]
  rw [hp]

/-- C4 witness: page 5 is missing from a one-page expected set. -/
theorem evaluation_missing_page_not_found_witness :
    ∃ p, computeAccuracy [⟨0, "A", 1, []⟩] [⟨5, "B", 1, []⟩] =
      .error (.notFoundError p) :=
  evaluation_missing_page_not_found [⟨0, "A", 1, []⟩] [⟨5, "B", 1, []⟩]
    ⟨5, "B", 1, []⟩ (by simp) (by decide)

/-- C7: the confidence report keeps every per-page entry (an undefined
confidence stays undefined, never coerced to 0), its overall aggregate
is the mean of only the defined per-page values, appending one
undefined entry leaves the aggregate unchanged, and defined values in
[0,1] give an aggregate in [0,1].  (The aggregation is spec-modelled;
see `evaluate_confidence`.) -/
theorem confidence_excludes_undefined (entries : List (Nat × Option ℚ)) (p0 : Nat)
    (hdef : entries.filterMap (fun p => p.2) ≠ []) :
    (evaluate_confidence entries).perPage = entries ∧
    (evaluate_confidence entries).overall =
      (entries.filterMap (fun p => p.2)).sum /
        ((entries.filterMap (fun p => p.2)).length : ℚ) ∧
    (evaluate_confidence (entries ++ [(p0, none)])).overall =
      (evaluate_confidence entries).overall ∧
    ((∀ x ∈ entries.filterMap (fun p => p.2), 0 ≤ x ∧ x ≤ 1) →
      0 ≤ (evaluate_confidence entries).overall ∧
        (evaluate_confidence entries).overall ≤ 1) := by
  refine ⟨rfl, rfl, ?_, ?_⟩
  · simp [evaluate_confidence, List.filterMap_append]
  · intro hb
    have hpos : 0 < (entries.filterMap (fun p => p.2)).length :=
      List.length_pos.mpr hdef
    have hsum0 : 0 ≤ (entries.filterMap (fun p => p.2)).sum :=
      List.sum_nonneg (fun x hx => (hb x hx).1)
    have hsum1 : (entries.filterMap (fun p => p.2)).sum ≤
        ((entries.filterMap (fun p => p.2)).length : ℚ) := by
      calc (entries.filterMap (fun p => p.2)).sum
          ≤ (entries.filterMap (fun p => p.2)).length • (1 : ℚ) :=
            List.sum_le_card_nsmul _ 1 (fun x hx => (hb x hx).2)
        _ = ((entries.filterMap (fun p => p.2)).length : ℚ) := by simp
    constructor
    · show (0 : ℚ) ≤ (entries.filterMap (fun p => p.2)).sum /
        ((entries.filterMap (fun p => p.2)).length : ℚ)
      exact div_nonneg hsum0 (by positivity)
    · show (entries.filterMap (fun p => p.2)).sum /
        ((entries.filterMap (fun p => p.2)).length : ℚ) ≤ 1
      rw [div_le_one (by exact_mod_cast hpos)]
      exact hsum1

/-- C7 witness: appending an undefined entry to a set with one defined
confidence does not change the aggregate. -/
theorem confidence_excludes_undefined_witness :
    (([((1 : Nat), some (1 : ℚ)), (2, none)].filterMap (fun p => p.2)) ≠ []) ∧
    (evaluate_confidence ([((1 : Nat), some (1 : ℚ)), (2, none)] ++ [(3, none)])).overall =
      (evaluate_confidence [((1 : Nat), some (1 : ℚ)), (2, none)]).overall :=
  ⟨by decide,
   (confidence_excludes_undefined [((1 : Nat), some (1 : ℚ)), (2, none)] 3
      (by decide)).2.2.1⟩

end DocClassification
